import Mathlib

/-!
Verification development for the URL / DSN validation engine of
`pydantic/networks.py` (classes `AnyUrl`, `HttpUrl`, `MultiHostDsn`,
`PostgresDsn`, `RedisDsn`, ... and the five module-level regexes).

The Python code matches URL strings with `re` patterns whose components are
nearly deterministic.  Here every regex is shallowly embedded as a
deterministic parser that computes the same named groups and the same match
end position as Python's backtracking engine.  Each parser's doc comment
records the original pattern and, where backtracking order matters, why the
deterministic formulation coincides with Python's leftmost / greedy / lazy
choices.

Modelling scope notes (all recorded per definition as well):
* Python's `\s`, `\d`, `\w` are Unicode-aware.  The development only ever
  evaluates the parsers on ASCII strings; the character predicates model the
  ASCII behaviour exactly and approximate the non-ASCII behaviour (every
  non-ASCII character counts as a letter for the `[^\W\d_]` class, and the
  listed Unicode spaces for `\s`).
* `str.encode('idna')` (CPython `encodings/idna.py` + `encodings/punycode.py`)
  is embedded including the ASCII fast path and the punycode encoder; the
  `nameprep` step is modelled as ASCII case folding only.
* The surrounding pydantic-core string schema (min/max length, whitespace
  stripping) runs before `AnyUrl.validate` and is outside this module's code;
  it is not modelled.  `stricturl` and the email / IP delegation classes are
  likewise out of scope for the claims treated here.
-/

deriving instance DecidableEq for Except

/-- Truthiness of a Python `str | None` value: `None` and `''` are falsy. -/
def truthy : Option String → Bool
  | none => false
  | some s => !s.isEmpty

/-- Python `\s` on the characters this development evaluates: ASCII whitespace
plus the explicitly listed Unicode whitespace code points (file separator
block, NEL, NBSP).  Further non-ASCII Unicode spaces are not modelled; no
input in this file contains them. -/
def pyIsSpace (c : Char) : Bool :=
  c == ' ' || c == '\t' || c == '\n' || c == '\r' || c == '\x0b' || c == '\x0c' ||
  c == '\x1c' || c == '\x1d' || c == '\x1e' || c == '\x1f' || c == '\x85' || c == '\xa0'

/-- ASCII letter, i.e. `[a-z]` under `re.IGNORECASE`. -/
def isAsciiLetter (c : Char) : Bool :=
  ('a' ≤ c && c ≤ 'z') || ('A' ≤ c && c ≤ 'Z')

/-- ASCII digit, modelling `\d` (Python's `\d` also accepts non-ASCII decimal
digits, which never occur in the strings evaluated here). -/
def isAsciiDigit (c : Char) : Bool :=
  '0' ≤ c && c ≤ '9'

/-- Character class of the tail of the scheme token: `[a-z0-9+\-.]` with
`re.IGNORECASE`. -/
def isSchemeChar (c : Char) : Bool :=
  isAsciiLetter c || isAsciiDigit c || c == '+' || c == '-' || c == '.'

/-- Character class of the `user` group: `[^\s:/]`. -/
def isUserChar (c : Char) : Bool :=
  !pyIsSpace c && c != ':' && c != '/'

/-- Character class of the `password` group: `[^\s/]`. -/
def isPassChar (c : Char) : Bool :=
  !pyIsSpace c && c != '/'

/-- Character class of the `domain` group: `[^\s/:?#]`. -/
def isDomainChar (c : Char) : Bool :=
  !pyIsSpace c && c != '/' && c != ':' && c != '?' && c != '#'

/-- Hex digit of the ipv6 token `[A-F0-9]` under `re.IGNORECASE`. -/
def isHexChar (c : Char) : Bool :=
  isAsciiDigit c || ('A' ≤ c && c ≤ 'F') || ('a' ≤ c && c ≤ 'f')

/-- Character class of the `path` group body: `[^\s?#]`. -/
def isPathChar (c : Char) : Bool :=
  !pyIsSpace c && c != '?' && c != '#'

/-- Character class of the `query` and `fragment` group bodies: `[^\s#]`. -/
def isQueryChar (c : Char) : Bool :=
  !pyIsSpace c && c != '#'

/-- Split a list at the LAST occurrence of `c`: `splitLast c xs = some (l, r)`
iff `xs = l ++ [c] ++ r` with `c ∉ r`.  Used to model how a greedy group
followed by a literal backtracks to the last occurrence of that literal. -/
def splitLast (c : Char) : List Char → Option (List Char × List Char)
  | [] => none
  | x :: rest =>
    match splitLast c rest with
    | some (l, r) => some (x :: l, r)
    | none => if x == c then some ([], rest) else none

/-- Python `str.split(sep)` for a one-character separator, on char lists:
`splitOnChar c cs` never returns an empty list, and splitting the empty
string yields `[[]]` (Python `''.split(',') == ['']`). -/
def splitOnChar (c : Char) : List Char → List (List Char)
  | [] => [[]]
  | x :: xs =>
    let r := splitOnChar c xs
    if x == c then [] :: r
    else
      match r with
      | [] => [[x]]
      | y :: ys => (x :: y) :: ys

/-- Raw named-group record of one regex match, the Lean counterpart of
`Parts` / `m.groupdict()`.  A key that is absent from a pattern (e.g. `domain`
for the multi-host pattern, `hostsRaw` for the single-host pattern) simply
stays `none`, which no code path of this module can distinguish from an
unmatched group. -/
structure Parts where
  scheme : Option String := none
  user : Option String := none
  password : Option String := none
  ipv4 : Option String := none
  ipv6 : Option String := none
  domain : Option String := none
  port : Option String := none
  path : Option String := none
  query : Option String := none
  fragment : Option String := none
  hostsRaw : Option String := none
  deriving DecidableEq, Repr

/-- Scheme component `(?:(?P<scheme>[a-z][a-z0-9+\-.]+)://)?`.
Deterministic reading: the token is the maximal run (first char a letter,
then at least one `isSchemeChar`) and must be followed by the literal `://`.
Backtracking cannot pick a shorter token: `:` is not in the char class, so
inside the maximal run no position is followed by `://`. -/
def parseScheme (cs : List Char) : Option String × List Char :=
  match cs with
  | [] => (none, cs)
  | c :: rest =>
    if isAsciiLetter c then
      let t := rest.takeWhile isSchemeChar
      match rest.dropWhile isSchemeChar with
      | ':' :: '/' :: '/' :: r2 =>
        if t.isEmpty then (none, cs) else (some (c :: t).asString, r2)
      | _ => (none, cs)
    else (none, cs)

/-- Userinfo component `(?:(?P<user>[^\s:/]*)(?::(?P<password>[^\s/]*))?@)?`.
Deterministic reading of Python's backtracking order (user greedy, then the
optional password branch preferred, password greedy, everything giving back
until an `@` is found):
let `u0` be the maximal `isUserChar` run.
* If the next char is `:` and the maximal `isPassChar` run after it contains
  an `@`, the group matches with `user = u0` and `password` everything up to
  the LAST such `@`.
* Otherwise, if `u0` contains an `@`, the group matches without password and
  `user` is `u0` up to its LAST `@` (no with-password split can exist there,
  since no char of `u0` is `:`).
* Otherwise the whole optional group matches empty.
All later components of the pattern can match the empty string, so the first
choice in this order is the one Python's engine commits to. -/
def parseUserinfo (cs : List Char) : Option String × Option String × List Char :=
  let u0 := cs.takeWhile isUserChar
  let r1 := cs.dropWhile isUserChar
  let fallback : Option String × Option String × List Char :=
    match splitLast '@' u0 with
    | some (u, after) => (some u.asString, none, after ++ r1)
    | none => (none, none, cs)
  match r1 with
  | ':' :: r2 =>
    let pr := r2.takeWhile isPassChar
    match splitLast '@' pr with
    | some (p, after) => (some u0.asString, some p.asString, after ++ r2.dropWhile isPassChar)
    | none => fallback
  | _ => fallback

/-- Lookahead `(?=$|[/:#?])` shared by the ipv4 and ipv6 alternatives. -/
def hostLookahead : List Char → Bool
  | [] => true
  | c :: _ => c == '/' || c == ':' || c == '#' || c == '?'

/-- One `\d{1,3}` group of the ipv4 token.  The run of digits is bounded by
the following non-digit, so backtracking inside `\d{1,3}` cannot help: the
maximal run must itself have length 1..3. -/
def parseOctet (cs : List Char) : Option (List Char × List Char) :=
  let d := cs.takeWhile isAsciiDigit
  if d.length < 1 || 3 < d.length then none
  else some (d, cs.dropWhile isAsciiDigit)

/-- Ipv4 alternative `(?P<ipv4>(?:\d{1,3}\.){3}\d{1,3})(?=$|[/:#?])`. -/
def parseIpv4 (cs : List Char) : Option (String × List Char) :=
  match parseOctet cs with
  | none => none
  | some (d1, r1) =>
    match r1 with
    | '.' :: r1' =>
      match parseOctet r1' with
      | none => none
      | some (d2, r2) =>
        match r2 with
        | '.' :: r2' =>
          match parseOctet r2' with
          | none => none
          | some (d3, r3) =>
            match r3 with
            | '.' :: r3' =>
              match parseOctet r3' with
              | none => none
              | some (d4, r4) =>
                if hostLookahead r4 then
                  some ((d1 ++ '.' :: d2 ++ '.' :: d3 ++ '.' :: d4).asString, r4)
                else none
            | _ => none
        | _ => none
    | _ => none

/-- Ipv6 alternative `(?P<ipv6>\[[A-F0-9]*:[A-F0-9:]+\])(?=$|[/:#?])`.
Both inner runs are maximal (`:` is not a hex char, `]` is in neither class),
so no backtracking choice exists. -/
def parseIpv6 (cs : List Char) : Option (String × List Char) :=
  match cs with
  | '[' :: r1 =>
    let h1 := r1.takeWhile isHexChar
    match r1.dropWhile isHexChar with
    | ':' :: r3 =>
      let h2 := r3.takeWhile (fun c => isHexChar c || c == ':')
      if h2.isEmpty then none
      else
        match r3.dropWhile (fun c => isHexChar c || c == ':') with
        | ']' :: r5 =>
          if hostLookahead r5 then
            some (('[' :: h1 ++ ':' :: h2 ++ [']']).asString, r5)
          else none
        | _ => none
    | _ => none
  | [] => none
  | _ => none

/-- Host component `(?:ipv4|ipv6|(?P<domain>[^\s/:?#]+))?`, alternatives in
source order.  Returns `(ipv4, ipv6, domain, rest)`. -/
def parseHostGroup (cs : List Char) :
    Option String × Option String × Option String × List Char :=
  match parseIpv4 cs with
  | some (v, r) => (some v, none, none, r)
  | none =>
    match parseIpv6 cs with
    | some (v, r) => (none, some v, none, r)
    | none =>
      let d := cs.takeWhile isDomainChar
      if d.isEmpty then (none, none, none, cs)
      else (none, none, some d.asString, cs.dropWhile isDomainChar)

/-- Port component `(?::(?P<port>\d+))?`. -/
def parsePort (cs : List Char) : Option String × List Char :=
  match cs with
  | ':' :: r =>
    let d := r.takeWhile isAsciiDigit
    if d.isEmpty then (none, cs) else (some d.asString, r.dropWhile isAsciiDigit)
  | _ => (none, cs)

/-- Path component `(?P<path>/[^\s?#]*)?`. -/
def parsePath (cs : List Char) : Option String × List Char :=
  match cs with
  | '/' :: r => (some ('/' :: r.takeWhile isPathChar).asString, r.dropWhile isPathChar)
  | _ => (none, cs)

/-- Query component `(?:\?(?P<query>[^\s#]*))?` (group value without `?`). -/
def parseQuery (cs : List Char) : Option String × List Char :=
  match cs with
  | '?' :: r => (some (r.takeWhile isQueryChar).asString, r.dropWhile isQueryChar)
  | _ => (none, cs)

/-- Fragment component `(?:#(?P<fragment>[^\s#]*))?` (group value without `#`). -/
def parseFragment (cs : List Char) : Option String × List Char :=
  match cs with
  | '#' :: r => (some (r.takeWhile isQueryChar).asString, r.dropWhile isQueryChar)
  | _ => (none, cs)

/-- `url_regex().match(s)`: the single-host pattern
`scheme userinfo (ipv4|ipv6|domain)? (:port)? path? (?query)? (#fragment)?`.
Every component is optional, so the match itself always succeeds (this is the
`assert m` of `AnyUrl.validate`); the returned string is the unconsumed
suffix `s[m.end():]`. -/
def matchUrlRegex (s : String) : Parts × String :=
  let cs0 := s.data
  let (sch, cs1) := parseScheme cs0
  let (usr, pwd, cs2) := parseUserinfo cs1
  let (v4, v6, dom, cs3) := parseHostGroup cs2
  let (prt, cs4) := parsePort cs3
  let (pth, cs5) := parsePath cs4
  let (qry, cs6) := parseQuery cs5
  let (frg, cs7) := parseFragment cs6
  ({ scheme := sch, user := usr, password := pwd, ipv4 := v4, ipv6 := v6,
     domain := dom, port := prt, path := pth, query := qry, fragment := frg }, cs7.asString)

/-- `multi_host_url_regex().match(s)`: like the single-host pattern but the
host position is the single greedy group `(?P<hosts>([^/]*))`. -/
def matchMultiHostUrlRegex (s : String) : Parts × String :=
  let cs0 := s.data
  let (sch, cs1) := parseScheme cs0
  let (usr, pwd, cs2) := parseUserinfo cs1
  let hs := cs2.takeWhile (· != '/')
  let cs3 := cs2.dropWhile (· != '/')
  let (pth, cs4) := parsePath cs3
  let (qry, cs5) := parseQuery cs4
  let (frg, cs6) := parseFragment cs5
  ({ scheme := sch, user := usr, password := pwd, hostsRaw := some hs.asString,
     path := pth, query := qry, fragment := frg }, cs6.asString)

/-- `host_regex().match(seg)`: the bare host+port sub-pattern
`(?:ipv4|ipv6|domain)?(?::(?P<port>\d+))?`.  All groups are optional, so it
matches a (possibly empty) prefix of every segment; the returned string is
the ignored unmatched suffix. -/
def matchHostRegex (s : String) : Parts × String :=
  let cs0 := s.data
  let (v4, v6, dom, cs1) := parseHostGroup cs0
  let (prt, cs2) := parsePort cs1
  ({ ipv4 := v4, ipv6 := v6, domain := dom, port := prt }, cs2.asString)

/-! ## Domain grammars

`ascii_domain_regex()` is `(?:C\.)*?C(?P<tld>\.[a-z]{2,63})?\.?` with chunk
`C = [_0-9a-z](?:[-_0-9a-z]{0,61}[_0-9a-z])?`, `re.IGNORECASE`, used with
`fullmatch`.  `int_domain_regex()` has the same shape with chunk class
`[_0-9a-\U00040000]` and tld `(\.[^\W\d_]{2,63})|(\.(?:xn--)[_0-9a-z-]{2,63})`.

Deterministic reading of `fullmatch` (dots cannot occur inside a chunk or a
tld body, so the string decomposes into its dot-separated labels; the lazy
star takes as few leading labels as possible, and a tail of three or more
labels can never be finished by `C (tld)? \.?`):
* the match succeeds iff every label except possibly the last is a valid
  chunk and the last label is a valid chunk or (with at least two labels) a
  valid tld body;
* the `tld` group is set iff there are at least two labels and the last one
  is a valid tld body (the lazy star stops two labels early in that case,
  which is tried before consuming the last label as a plain chunk).
A trailing dot is consumed by the final `\.?` and does not count as a label.
-/

/-- Chunk character of the ASCII domain grammar: `[-_0-9a-z]` + `IGNORECASE`. -/
def isAsciiChunkChar (c : Char) : Bool :=
  isAsciiLetter c || isAsciiDigit c || c == '_' || c == '-'

/-- Python `ord(c) < 128`, the condition for `str.encode('ascii')` to
succeed on a character. -/
def charIsAscii (c : Char) : Bool :=
  c.val < 128

/-- Chunk character of the international domain grammar:
`[-_0-9a-\U00040000]` + `IGNORECASE` (the range `a-\U00040000` covers all
code points from U+0061 to U+40000; `IGNORECASE` additionally lets the ASCII
uppercase letters match through their lowercase forms). -/
def isIntChunkChar (c : Char) : Bool :=
  c == '_' || c == '-' || isAsciiDigit c ||
  (0x61 ≤ c.val && c.val ≤ 0x40000) || ('A' ≤ c && c ≤ 'Z')

/-- Python's `[^\W\d_]` (a Unicode letter).  Modelled as: ASCII letter, or any
non-ASCII character.  This development only evaluates it on ASCII strings,
where the modelling is exact. -/
def pyIsLetter (c : Char) : Bool :=
  isAsciiLetter c || !charIsAscii c

/-- Validity of one label as a chunk `first(?:middle{0,61}last)?`: length 1-63,
all characters in the class, first and last character not `-`. -/
def chunkValid (cclass : Char → Bool) (l : List Char) : Bool :=
  match l with
  | [] => false
  | c :: _ =>
    l.length ≤ 63 && l.all cclass && c != '-' && l.getLast! != '-'

/-- Validity of the last label as the ASCII tld body `[a-z]{2,63}`
(`IGNORECASE`). -/
def tldValidAscii (l : List Char) : Bool :=
  2 ≤ l.length && l.length ≤ 63 && l.all isAsciiLetter

/-- Validity of the last label as the international tld body:
`[^\W\d_]{2,63}` or `(?:xn--)[_0-9a-z-]{2,63}` (`IGNORECASE`). -/
def tldValidInt (l : List Char) : Bool :=
  (2 ≤ l.length && l.length ≤ 63 && l.all pyIsLetter) ||
  (match l with
   | x :: n :: '-' :: '-' :: rest =>
     (x == 'x' || x == 'X') && (n == 'n' || n == 'N') &&
     2 ≤ rest.length && rest.length ≤ 63 &&
     rest.all (fun c => isAsciiLetter c || isAsciiDigit c || c == '_' || c == '-')
   | _ => false)

/-- Decompose a nonempty list into its initial segment and last element. -/
def initLast : List α → Option (List α × α)
  | [] => none
  | [a] => some ([], a)
  | a :: b :: rest =>
    match initLast (b :: rest) with
    | some (i, l) => some (a :: i, l)
    | none => none

/-- Dot-separated labels of a host token plus a flag for one trailing dot.
`none` when the decomposition is impossible for both domain grammars: no
label at all, or an empty label anywhere but the end. -/
def domainLabels (h : String) : Option (List (List Char) × Bool) :=
  let ls := splitOnChar '.' h.data
  match initLast ls with
  | none => none
  | some (front, lastL) =>
    let (labels, trail) := if lastL.isEmpty then (front, true) else (ls, false)
    if labels.isEmpty || labels.any List.isEmpty then none
    else some (labels, trail)

/-- Shared shape of both `fullmatch` results: `none` if the grammar does not
fullmatch, otherwise `some tld` where `tld` is the value of the `tld` group
(including its leading dot, exactly like `d.group('tld')`).  The tld branch
requires at least two labels, i.e. a nonempty initial segment. -/
def domainFullmatch (cclass : Char → Bool) (tldValid : List Char → Bool)
    (h : String) : Option (Option String) :=
  match domainLabels h with
  | none => none
  | some (labels, _) =>
    match initLast labels with
    | none => none
    | some (front, lastL) =>
      if front.all (chunkValid cclass) then
        if !front.isEmpty && tldValid lastL then
          some (some ('.' :: lastL).asString)
        else if chunkValid cclass lastL then
          some none
        else none
      else none

/-- `ascii_domain_regex().fullmatch(h)` reduced to its group content. -/
def asciiDomainFullmatch (h : String) : Option (Option String) :=
  domainFullmatch isAsciiChunkChar tldValidAscii h

/-- `int_domain_regex().fullmatch(h)` reduced to its group content. -/
def intDomainFullmatch (h : String) : Option (Option String) :=
  domainFullmatch isIntChunkChar tldValidInt h

/-! ## IDNA encoding (`str.encode('idna').decode('ascii')`)

CPython `encodings/idna.py`: the codec first tries an ASCII fast path (the
input is returned unchanged after per-label length checks), otherwise splits
into labels and applies `ToASCII` to each.  `ToASCII` returns an ASCII label
unchanged (length 1-63), otherwise nameprep-folds it and punycode-encodes it
with the `xn--` ACE marker.  `nameprep` is modelled as ASCII case folding
only (table B.2 on ASCII; the prohibited/unassigned checks are not modelled
— every host this development evaluates is pure ASCII and takes the fast
path).  A `none` result models a raised `UnicodeError`. -/

/-- Digit of a punycode generalized integer: `abcdefghijklmnopqrstuvwxyz0123456789`. -/
def punyDigit (d : Nat) : Char :=
  if d < 26 then Char.ofNat ('a'.toNat + d) else Char.ofNat ('0'.toNat + (d - 26))

/-- Threshold function `T(j, bias)` of `encodings/punycode.py`. -/
def punyT (j bias : Nat) : Nat :=
  if 36 * (j + 1) ≤ bias then 1
  else min 26 (36 * (j + 1) - bias)

/-- `generate_generalized_integer(N, bias)`. -/
def punyGenInt (bias : Nat) (j : Nat) (n : Nat) : List Char :=
  let t := punyT j bias
  if h : n < t then [punyDigit n]
  else
    have ht : 1 ≤ t := by
      show 1 ≤ punyT j bias
      unfold punyT
      split
      · exact Nat.le_refl 1
      · have h26 : 1 ≤ 36 * (j + 1) - bias := by omega
        exact le_min (by omega) h26
    have : (n - t) / (36 - t) < n := by
      have h1 : n - t < n := Nat.sub_lt (by omega) ht
      exact Nat.lt_of_le_of_lt (Nat.div_le_self _ _) h1
    punyDigit (t + (n - t) % (36 - t)) :: punyGenInt bias (j + 1) ((n - t) / (36 - t))
  termination_by n

/-- Inner loop of `adapt`: divide by 35 while above 455, counting 36 per step. -/
def punyAdaptLoop (delta : Nat) (divisions : Nat) : Nat × Nat :=
  if h : 455 < delta then
    have : delta / 35 < delta := Nat.div_lt_self (by omega) (by omega)
    punyAdaptLoop (delta / 35) (divisions + 36)
  else (delta, divisions)
  termination_by delta

/-- `adapt(delta, first, numchars)` bias adaptation. -/
def punyAdapt (delta : Nat) (first : Bool) (numchars : Nat) : Nat :=
  let d1 := if first then delta / 700 else delta / 2
  let d2 := d1 + d1 / numchars
  let (d3, divisions) := punyAdaptLoop d2 0
  divisions + (36 * d3) / (d3 + 38)

/-- Sorted list of the distinct non-ASCII characters of the input
(`extended = sorted(set(...))` in `segregate`). -/
def punyExtended (input : List Char) : List Char :=
  (input.filter (fun c => !charIsAscii c)).foldr
    (fun c acc =>
      let rec ins (c : Char) : List Char → List Char
        | [] => [c]
        | x :: xs =>
          if c.val < x.val then c :: x :: xs
          else if c.val = x.val then x :: xs
          else x :: ins c xs
      ins c acc) []

/-- Selective indices of the occurrences of `c` in `str` in Python's
`insertion_unsort` sense: scanning left to right, the running index counts
the characters with smaller code point plus the earlier occurrences of `c`;
each occurrence reports the current index and then advances it (the source
starts its counter at -1 and reports `index+1`, which is the same). -/
def punySelIdx (c : Char) : List Char → Nat → List Nat
  | [], _ => []
  | x :: xs, idx =>
    if x.val = c.val then idx :: punySelIdx c xs (idx + 1)
    else if x.val < c.val then punySelIdx c xs (idx + 1)
    else punySelIdx c xs idx

/-- `insertion_unsort(str, extended)`: the list of deltas, one per inserted
non-basic character. -/
def punyDeltas (input : List Char) : List Nat :=
  let ext := punyExtended input
  let step : (Nat × Int) → Char → ((Nat × Int) × List Nat) :=
    fun (oldchar, oldindex) c =>
      let curlen := (input.filter (fun x => x.val < c.val)).length
      let idxs := punySelIdx c input 0
      let first : Int := (curlen + 1) * ((c.val.toNat : Int) - oldchar)
      let rec walk (prev : Int) (carry : Int) : List Nat → List Nat × Int
        | [] => ([], prev)
        | i :: is =>
          let d := carry + ((i : Int) - prev)
          let (rest, last) := walk i 0 is
          ((d - 1).toNat :: rest, last)
      let (ds, lastIdx) := walk oldindex first idxs
      ((c.val.toNat, lastIdx), ds)
  (ext.foldl (fun (st, acc) c => let (st', ds) := step st c; (st', acc ++ ds))
    ((0x80, (-1 : Int)), [])).2

/-- `generate_integers(baselen, deltas)`: encode every delta, adapting the
bias after each. -/
def punyIntegers (baselen : Nat) (deltas : List Nat) : List Char :=
  (deltas.foldl
    (fun (acc, bias, points) d =>
      (acc ++ punyGenInt bias 0 d, punyAdapt d (points = 0) (baselen + points + 1),
       points + 1))
    (([] : List Char), 72, 0)).1

/-- `punycode_encode(text)`. -/
def punycodeEncode (input : List Char) : List Char :=
  let base := input.filter charIsAscii
  let ext := punyIntegers base.length (punyDeltas input)
  if base.isEmpty then ext else base ++ '-' :: ext

/-- `ToASCII(label)` of `encodings/idna.py` (nameprep modelled as ASCII case
folding).  `none` models `UnicodeError`. -/
def toAsciiLabel (l : List Char) : Option (List Char) :=
  if l.all charIsAscii then
    if 0 < l.length && l.length < 64 then some l else none
  else
    let l' := l.map Char.toLower
    if l'.all charIsAscii then
      if 0 < l'.length && l'.length < 64 then some l' else none
    else
      match l' with
      | 'x' :: 'n' :: '-' :: '-' :: _ => none
      | _ =>
        let p := 'x' :: 'n' :: '-' :: '-' :: punycodeEncode l'
        if 0 < p.length && p.length < 64 then some p else none

/-- `host.encode('idna').decode('ascii')` (CPython `encodings/idna.py`
`Codec.encode`): ASCII fast path returning the input unchanged after label
length checks, otherwise label-wise `ToASCII` joined by dots, preserving one
trailing dot.  `none` models `UnicodeError`.  Labels are split on `'.'` only;
the codec additionally splits on the ideographic dots U+3002/U+FF0E/U+FF61,
a non-ASCII-only refinement (like nameprep beyond case folding) outside the
modelled scope and never relied on by a theorem below. -/
def idnaEncode (host : String) : Option String :=
  if host.data.all charIsAscii then
    match initLast (splitOnChar '.' host.data) with
    | none => none
    | some (front, lastL) =>
      if front.all (fun l => 0 < l.length && l.length < 64) && lastL.length < 64 then
        some host
      else none
  else
    let ls := splitOnChar '.' host.data
    match initLast ls with
    | none => none
    | some (front, lastL) =>
      let (labels, trail) := if lastL.isEmpty then (front, true) else (ls, false)
      match labels.mapM toAsciiLabel with
      | none => none
      | some ls' =>
        some ((List.intercalate ['.'] ls').asString ++ if trail then "." else "")

/-- Python `repr` of a string, as used for the `extra` error context
`repr(url[m.end():])`: single quotes unless the string contains `'` but no
`"`; backslash, quote and the common control characters escaped, other
non-printable ASCII as `\xhh`.  Non-ASCII printability subtleties are not
modelled (never evaluated here). -/
def pyRepr (s : String) : String :=
  let q : Char := if s.data.contains '\'' && !s.data.contains '"' then '"' else '\''
  let hexDigit (n : Nat) : Char :=
    if n < 10 then Char.ofNat ('0'.toNat + n) else Char.ofNat ('a'.toNat + (n - 10))
  let esc (c : Char) : List Char :=
    if c == '\\' then ['\\', '\\']
    else if c == q then ['\\', q]
    else if c == '\n' then ['\\', 'n']
    else if c == '\r' then ['\\', 'r']
    else if c == '\t' then ['\\', 't']
    else if c.val < 0x20 || c.val == 0x7f then
      ['\\', 'x', hexDigit (c.toNat / 16), hexDigit (c.toNat % 16)]
    else [c]
  (q :: (s.data.foldr (fun c acc => esc c ++ acc) [q])).asString

/-! ## Data model: URL classes (profiles), errors, values -/

/-- The concrete URL classes of `networks.py` that take part in validation.
Each carries its class-attribute profile through the functions below
(`allowed_schemes`, `tld_required`, `user_required`, `host_required`,
`hidden_parts`, `get_default_parts`) and, for `PostgresDsn`, the
`MultiHostDsn` overrides.  `stricturl`-generated classes are not modelled. -/
inductive UrlClass
  | anyUrl | anyHttpUrl | httpUrl | fileUrl
  | postgresDsn | cockroachDsn | amqpDsn | redisDsn | mongoDsn | kafkaDsn
  deriving DecidableEq, Repr

/-- Class attribute `allowed_schemes` (`None` means unrestricted). -/
def allowedSchemes : UrlClass → Option (List String)
  | .anyUrl => none
  | .anyHttpUrl => some ["http", "https"]
  | .httpUrl => some ["http", "https"]
  | .fileUrl => some ["file"]
  | .postgresDsn => some ["postgres", "postgresql", "postgresql+asyncpg",
      "postgresql+pg8000", "postgresql+psycopg", "postgresql+psycopg2",
      "postgresql+psycopg2cffi", "postgresql+py-postgresql", "postgresql+pygresql"]
  | .cockroachDsn => some ["cockroachdb", "cockroachdb+psycopg2", "cockroachdb+asyncpg"]
  | .amqpDsn => some ["amqp", "amqps"]
  | .redisDsn => some ["redis", "rediss"]
  | .mongoDsn => some ["mongodb"]
  | .kafkaDsn => some ["kafka"]

/-- Class attribute `tld_required`. -/
def tldRequired : UrlClass → Bool
  | .httpUrl => true
  | _ => false

/-- Class attribute `user_required`. -/
def userRequired : UrlClass → Bool
  | .postgresDsn => true
  | .cockroachDsn => true
  | _ => false

/-- Class attribute `host_required`. -/
def hostRequired : UrlClass → Bool
  | .fileUrl => false
  | .amqpDsn => false
  | .redisDsn => false
  | _ => true

/-- Class attribute `hidden_parts`. -/
def hiddenParts : UrlClass → List String
  | .httpUrl => ["port"]
  | _ => []

/-- Whether the class inherits from `MultiHostDsn` (changing `_match_url`,
`validate_parts` and `_build_url`). -/
def isMultiHost : UrlClass → Bool
  | .postgresDsn => true
  | _ => false

/-- Keys produced by `get_default_parts(parts)`, modelled as a record with
one optional entry per key any profile ever emits. -/
structure DefaultParts where
  domain : Option String := none
  port : Option String := none
  path : Option String := none
  deriving DecidableEq, Repr

/-- Static method `get_default_parts(parts)` of each class.  `HttpUrl`
compares the scheme with the exact lowercase string `'http'`; `RedisDsn`
computes the domain default from the truthiness of the `ipv4` / `ipv6`
groups. -/
def getDefaultParts (cls : UrlClass) (parts : Parts) : DefaultParts :=
  match cls with
  | .httpUrl =>
    { port := some (if parts.scheme = some "http" then "80" else "443") }
  | .redisDsn =>
    { domain := some (if truthy parts.ipv4 || truthy parts.ipv6 then "" else "localhost"),
      port := some "6379", path := some "/0" }
  | .mongoDsn => { port := some "27017" }
  | .kafkaDsn => { domain := some "localhost", port := some "9092" }
  | _ => {}

/-- One key step of `apply_default_parts`: `if not parts[key]: parts[key] = value`
for a key the defaults dict may or may not contain. -/
def applyDefault1 (cur : Option String) (dv : Option String) : Option String :=
  if truthy cur then cur
  else match dv with
    | some v => some v
    | none => cur

/-- Class method `apply_default_parts(parts)`. -/
def applyDefaultParts (cls : UrlClass) (parts : Parts) : Parts :=
  let d := getDefaultParts cls parts
  { parts with
    domain := applyDefault1 parts.domain d.domain,
    port := applyDefault1 parts.port d.port,
    path := applyDefault1 parts.path d.path }

/-- Typed errors of the module.  The first seven are the
`PydanticCustomError` kinds raised in `validate` / `validate_parts` /
`validate_host` (`extraAfterValid` carries the `{'extra': repr(...)}`
context and `schemeNotPermitted` the `{'allowed_schemes': ...}` context).
`assertionFailed` models the `assert d is not None` in `validate_host`,
`unicodeError` a `UnicodeError` escaping from `.encode('idna')`, and
`typeError` the `TypeError` raised when `__new__` calls `cls.build(**kwargs)`
without the required `host` keyword argument. -/
inductive UrlError
  | extraAfterValid (extra : String)
  | missingScheme
  | schemeNotPermitted (allowed : String)
  | portInvalid
  | userinfoRequired
  | hostInvalid
  | tldRequired
  | assertionFailed
  | unicodeError
  | typeError
  deriving DecidableEq, Repr

/-- One entry of the `hosts` list of a `MultiHostDsn` (source `HostParts`). -/
structure HostParts where
  host : Option String := none
  host_type : Option String := none
  tld : Option String := none
  rebuild : Bool := false
  port : Option String := none
  deriving DecidableEq, Repr

/-- The validated value (source `AnyUrl` / `MultiHostDsn` instance): its
string content `text` plus the decomposed `__slots__` fields.  `hosts` is
populated only by the multi-host branch.  `rebuild` records whether the
constructor received `url=None` and rebuilt `text` via `build` (in Python
this flag is consumed at construction time and not stored; it is kept here
because the specification talks about it). -/
structure UrlValue where
  cls : UrlClass
  text : String
  scheme : String
  user : Option String := none
  password : Option String := none
  host : Option String := none
  tld : Option String := none
  host_type : Option String := none
  port : Option String := none
  path : Option String := none
  query : Option String := none
  fragment : Option String := none
  hosts : Option (List HostParts) := none
  rebuild : Bool := false
  deriving DecidableEq, Repr

/-! ## Parts validation -/

/-- Python `int(s)` on the digit-only strings the `\d+` groups and the
profile defaults can produce. -/
def pyInt (s : String) : Nat :=
  s.data.foldl (fun n c => n * 10 + (c.toNat - '0'.toNat)) 0

/-- Insert into a `≤`-sorted list of strings, for `sorted(...)`. -/
def insertSortedStr (s : String) : List String → List String
  | [] => [s]
  | t :: ts => if s ≤ t then s :: t :: ts else t :: insertSortedStr s ts

/-- Python `', '.join(sorted(set(allowed_schemes)))`, the error context of
the scheme-not-permitted error. -/
def allowedSchemesCtx (l : List String) : String :=
  String.intercalate ", " ((l.eraseDups).foldr insertSortedStr [])

/-- Python `str.lower()` restricted to ASCII, which is exact for the scheme
tokens the grammar can produce. -/
def pyLower (s : String) : String :=
  (s.data.map Char.toLower).asString

/-- Static method `AnyUrl._validate_port`. -/
def validatePortOpt : Option String → Except UrlError Unit
  | none => .ok ()
  | some p => if 65535 < pyInt p then .error .portInvalid else .ok ()

/-- Condition under which the scheme gate passes: `cls.allowed_schemes` is
falsy (`None` or empty), or the lower-cased scheme is a member. -/
def schemePermitted (cls : UrlClass) (scheme : String) : Bool :=
  match allowedSchemes cls with
  | none => true
  | some l => l.isEmpty || l.contains (pyLower scheme)

/-- Class method `validate_parts(parts, validate_port)` body (source
`AnyUrl.validate_parts`): scheme presence, allowed-scheme membership
(case-insensitive, with the sorted context payload), port bound (when
`validate_port`), then required user info. -/
def validatePartsAux (cls : UrlClass) (parts : Parts) (vport : Bool) :
    Except UrlError Parts :=
  match parts.scheme with
  | none => .error .missingScheme
  | some scheme =>
    if !schemePermitted cls scheme then
      .error (.schemeNotPermitted (allowedSchemesCtx ((allowedSchemes cls).getD [])))
    else
      match (if vport then validatePortOpt parts.port else .ok ()) with
      | .error e => .error e
      | .ok _ =>
        if userRequired cls && parts.user = none then .error .userinfoRequired
        else .ok parts

/-- Dispatched `validate_parts`: `MultiHostDsn.validate_parts` forwards to
the base implementation with `validate_port=False`. -/
def validateParts (cls : UrlClass) (parts : Parts) : Except UrlError Parts :=
  validatePartsAux cls parts (!isMultiHost cls)

/-! ## Host validation (`AnyUrl.validate_host`) -/

/-- Result quadruple of `validate_host`: `(host, tld, host_type, rebuild)`. -/
abbrev HostResult := Option String × Option String × Option String × Bool

/-- Re-match step of the domain branch of `validate_host`: when the ASCII
grammar matched but produced no `tld` group, the host is re-matched against
the international grammar purely to recover a `tld`, and the domain is
reclassified as international (`assert d is not None` modelled as
`assertionFailed`). -/
def validateHostRematch (h : String) (tld0 : Option String) (int0 : Bool) :
    Except UrlError (Option String × Bool) :=
  if tld0 = none && !int0 then
    match intDomainFullmatch h with
    | none => .error .assertionFailed
    | some tldI => .ok (tldI, true)
  else .ok (tld0, int0)

/-- Domain branch of `validate_host`, entered with the selected host `h`,
the group value of whichever domain grammar matched first and a flag telling
whether that was already the international grammar.  Mirrors the source:
re-match internationally when no `tld` was found yet, strip the leading dot,
enforce `tld_required`, and IDNA-encode host and tld for international
domains. -/
def validateHostDomain (cls : UrlClass) (h : String)
    (tld0 : Option String) (int0 : Bool) : Except UrlError HostResult :=
  match validateHostRematch h tld0 int0 with
  | .error e => .error e
  | .ok (tld1, isInt) =>
    let tldS : Option String := tld1.map (·.drop 1)
    if tld1 = none && tldRequired cls then .error .tldRequired
    else if isInt then
      match idnaEncode h with
      | none => .error .unicodeError
      | some h' =>
        match tldS with
        | none => .ok (some h', none, some "int_domain", true)
        | some t =>
          match idnaEncode t with
          | none => .error .unicodeError
          | some t' => .ok (some h', some t', some "int_domain", true)
    else .ok (some h, tldS, some "domain", false)

/-- Class method `validate_host(parts)`.  The `for f in ('domain', 'ipv4',
'ipv6')` loop selects the first truthy field (after the loop the variable
`host` holds the last examined value, i.e. `parts['ipv6']`, which matters
when no field is truthy). -/
def validateHost (cls : UrlClass) (parts : Parts) : Except UrlError HostResult :=
  let sel : Option String × Option String :=
    if truthy parts.domain then (parts.domain, some "domain")
    else if truthy parts.ipv4 then (parts.ipv4, some "ipv4")
    else if truthy parts.ipv6 then (parts.ipv6, some "ipv6")
    else (parts.ipv6, none)
  match sel with
  | (none, _) =>
    if hostRequired cls then .error .hostInvalid else .ok (none, none, none, false)
  | (some h, htype) =>
    if htype = some "domain" then
      match asciiDomainFullmatch h with
      | some tldA => validateHostDomain cls h tldA false
      | none =>
        match intDomainFullmatch h with
        | some tldI => validateHostDomain cls h tldI true
        | none => .error .hostInvalid
    else .ok (some h, none, htype, false)

/-! ## Building the canonical string and the value -/

/-- Class method `AnyUrl.build(...)` (string assembly only; the `Parts` dict
it creates for the hidden-part check is reconstructed here with the same
`scheme`/`user`/`password`/`port`/`path`/`query`/`fragment` entries.  The
Python dict holds `host` instead of the `domain`/`ipv4`/`ipv6` group keys;
of the profiles with a non-trivial hidden-part check only `HttpUrl` exists
and its default function reads just `scheme`, so the difference is
unobservable). -/
def buildUrl (cls : UrlClass) (scheme : String) (user password : Option String)
    (host : String) (port path query fragment : Option String) : String :=
  let bparts : Parts :=
    { scheme := some scheme, user := user, password := password,
      port := port, path := path, query := query, fragment := fragment }
  let showPort : Bool :=
    truthy port &&
      (!(hiddenParts cls).contains "port" ||
        (getDefaultParts cls bparts).port != port)
  scheme ++ "://" ++
  (match user with | some u => u | none => "") ++
  (if truthy password then ":" ++ password.getD "" else "") ++
  (if truthy user || truthy password then "@" else "") ++
  host ++
  (if showPort then ":" ++ port.getD "" else "") ++
  (if truthy path then path.getD "" else "") ++
  (if truthy query then "?" ++ query.getD "" else "") ++
  (if truthy fragment then "#" ++ fragment.getD "" else "")

/-- `AnyUrl._build_url(m, url, parts)`: validate the host and construct the
value.  When `rebuild` is set the constructor receives `url=None` and
re-serializes through `build` (the host is always a string on that path:
only the domain branch sets `rebuild`). -/
def buildSingle (cls : UrlClass) (url : String) (parts : Parts) :
    Except UrlError UrlValue :=
  match validateHost cls parts with
  | .error e => .error e
  | .ok (host?, tld?, htype?, rb) =>
    let mk (text : String) : UrlValue :=
      { cls := cls, text := text, scheme := parts.scheme.getD "",
        user := parts.user, password := parts.password,
        host := host?, tld := tld?, host_type := htype?,
        port := parts.port, path := parts.path, query := parts.query,
        fragment := parts.fragment, hosts := none, rebuild := rb }
    if rb then
      match host? with
      | some h =>
        .ok (mk (buildUrl cls (parts.scheme.getD "") parts.user parts.password h
          parts.port parts.path parts.query parts.fragment))
      | none => .error .typeError
    else .ok (mk url)

/-- One segment of the multi-host loop: `host_re.match(host).groupdict()`
(which matches a possibly-empty prefix and ignores the rest of the segment),
`validate_host` on those groups, then `_validate_port` on the segment's own
port. -/
def processSegment (cls : UrlClass) (seg : String) : Except UrlError HostParts :=
  let d := (matchHostRegex seg).1
  match validateHost cls d with
  | .error e => .error e
  | .ok (host?, tld?, htype?, rb) =>
    match validatePortOpt d.port with
    | .error e => .error e
    | .ok _ =>
      .ok { host := host?, host_type := htype?, tld := tld?, rebuild := rb,
            port := d.port }

/-- `Except`-valued `mapM` over the host segments. -/
def processSegments (cls : UrlClass) : List String → Except UrlError (List HostParts)
  | [] => .ok []
  | seg :: rest =>
    match processSegment cls seg with
    | .error e => .error e
    | .ok hp =>
      match processSegments cls rest with
      | .error e => .error e
      | .ok hps => .ok (hp :: hps)

/-- `MultiHostDsn._build_url(m, url, parts)`: split the raw `hosts` group on
`,`, validate each segment, then build either the hosts-list value (more
than one segment; `host_type=None`, flat host fields unset) or the
single-host compatibility value.  When any segment set `rebuild`, the
constructor receives `url=None`; on the hosts-list path `build(**kwargs)` is
then invoked without its required `host` argument, which raises `TypeError`
(modelled as `.error .typeError`). -/
def buildMulti (cls : UrlClass) (url : String) (parts : Parts) :
    Except UrlError UrlValue :=
  let segs := (splitOnChar ',' (parts.hostsRaw.getD "").data).map List.asString
  match processSegments cls segs with
  | .error e => .error e
  | .ok hostsParts =>
    if 1 < hostsParts.length then
      if hostsParts.any (·.rebuild) then .error .typeError
      else
        .ok { cls := cls, text := url, scheme := parts.scheme.getD "",
              user := parts.user, password := parts.password,
              host := none, tld := none, host_type := none, port := none,
              path := parts.path, query := parts.query, fragment := parts.fragment,
              hosts := some hostsParts, rebuild := false }
    else
      match hostsParts with
      | [] => .error .typeError
      | hp :: _ =>
        let mk (text : String) (rb : Bool) : UrlValue :=
          { cls := cls, text := text, scheme := parts.scheme.getD "",
            user := parts.user, password := parts.password,
            host := hp.host, tld := hp.tld, host_type := hp.host_type,
            port := hp.port, path := parts.path, query := parts.query,
            fragment := parts.fragment, hosts := none, rebuild := rb }
        if hp.rebuild then
          match hp.host with
          | some h =>
            .ok (mk (buildUrl cls (parts.scheme.getD "") parts.user parts.password h
              hp.port parts.path parts.query parts.fragment) true)
          | none => .error .typeError
        else .ok (mk url false)

/-- `cls._match_url(url)`: the single-host or the multi-host pattern. -/
def matchUrlFor (cls : UrlClass) (url : String) : Parts × String :=
  if isMultiHost cls then matchMultiHostUrlRegex url else matchUrlRegex url

/-- `cls._build_url(m, url, parts)` dispatch. -/
def buildFor (cls : UrlClass) (url : String) (parts : Parts) :
    Except UrlError UrlValue :=
  if isMultiHost cls then buildMulti cls url parts else buildSingle cls url parts

/-- `AnyUrl.validate` on a plain string input (the branch below the
already-validated short-circuit): match, apply the profile defaults,
validate the parts, reject a match that does not reach end of string with
the `url.extra` error carrying `repr` of the unconsumed suffix, then build
the value. -/
def validateStr (cls : UrlClass) (url : String) : Except UrlError UrlValue :=
  let (parts0, rest) := matchUrlFor cls url
  let parts := applyDefaultParts cls parts0
  match validateParts cls parts with
  | .error e => .error e
  | .ok parts =>
    if rest = "" then buildFor cls url parts
    else .error (.extraAfterValid (pyRepr rest))

/-- Input of `validate`: either a plain string or an existing URL value
(whose runtime class is recorded in the value itself). -/
inductive UrlInput
  | str (s : String)
  | val (v : UrlValue)
  deriving DecidableEq, Repr

/-- `AnyUrl.validate(__input_value)`: a value whose runtime class is exactly
`cls` is returned unchanged; everything else (plain strings, and values of
any other class, which are `str` subclass instances) is parsed from its
string content. -/
def validate (cls : UrlClass) (x : UrlInput) : Except UrlError UrlValue :=
  match x with
  | .str s => validateStr cls s
  | .val v => if v.cls = cls then .ok v else validateStr cls v.text

/-! ## Lemmas and claim theorems -/


theorem buildSingle_text (cls : UrlClass) (url : String) (parts : Parts) (v : UrlValue)
    (h : buildSingle cls url parts = .ok v) (hrb : v.rebuild = false) : v.text = url := by
  unfold buildSingle at h
  cases hvh : validateHost cls parts with
  | error e => rw [hvh] at h; cases h
  | ok res =>
    obtain ⟨host?, tld?, htype?, rb⟩ := res
    rw [hvh] at h
    simp only at h
    cases rb with
    | false => simp only [if_neg (by simp : ¬(false = true))] at h; cases h; rfl
    | true =>
      simp only [if_pos rfl] at h
      cases host? with
      | none => cases h
      | some hh => cases h; cases hrb

theorem buildMulti_text (cls : UrlClass) (url : String) (parts : Parts) (v : UrlValue)
    (h : buildMulti cls url parts = .ok v) (hrb : v.rebuild = false) : v.text = url := by
  simp only [buildMulti] at h
  cases hps : processSegments cls ((splitOnChar ',' (parts.hostsRaw.getD "").data).map List.asString) with
  | error e => rw [hps] at h; cases h
  | ok hostsParts =>
    rw [hps] at h
    simp only at h
    split at h
    · split at h
      · cases h
      · cases h; rfl
    · cases hostsParts with
      | nil => cases h
      | cons hp tl =>
        simp only at h
        cases hr : hp.rebuild with
        | false => rw [hr] at h; simp only [if_neg (by simp : ¬(false = true))] at h; cases h; rfl
        | true =>
          rw [hr] at h
          simp only [if_pos rfl] at h
          cases hh : hp.host with
          | none => rw [hh] at h; cases h
          | some hhost => rw [hh] at h; cases h; cases hrb

theorem validateStr_text (cls : UrlClass) (s : String) (v : UrlValue)
    (h : validateStr cls s = .ok v) (hrb : v.rebuild = false) : v.text = s := by
  unfold validateStr at h
  rcases hm : matchUrlFor cls s with ⟨parts0, rest⟩
  rw [hm] at h
  simp only at h
  cases hvp : validateParts cls (applyDefaultParts cls parts0) with
  | error e => rw [hvp] at h; cases h
  | ok parts1 =>
    rw [hvp] at h
    simp only at h
    split at h
    · unfold buildFor at h
      split at h
      · exact buildMulti_text _ _ _ _ h hrb
      · exact buildSingle_text _ _ _ _ h hrb
    · cases h

theorem initLast_spec : ∀ (l : List α) (f : List α) (a : α),
    initLast l = some (f, a) → l = f ++ [a] := by
  intro l
  induction l with
  | nil => intro f a h; cases h
  | cons x xs ih =>
    intro f a h
    cases xs with
    | nil => simp [initLast] at h; simp [h.1, h.2]
    | cons y ys =>
      simp only [initLast] at h
      cases hi : initLast (y :: ys) with
      | none => rw [hi] at h; cases h
      | some fl =>
        obtain ⟨f', a'⟩ := fl
        rw [hi] at h
        simp only at h
        cases h
        simp [ih _ _ hi]

theorem initLast_isSome : ∀ (l : List α), l ≠ [] → (initLast l).isSome := by
  intro l
  induction l with
  | nil => intro h; exact absurd rfl h
  | cons x xs ih =>
    intro _
    cases xs with
    | nil => simp [initLast]
    | cons y ys =>
      simp only [initLast]
      cases hi : initLast (y :: ys) with
      | none =>
        have := ih (by simp)
        rw [hi] at this
        cases this
      | some fl => simp

theorem splitOnChar_ne_nil (c : Char) : ∀ (cs : List Char), splitOnChar c cs ≠ [] := by
  intro cs
  induction cs with
  | nil => simp [splitOnChar]
  | cons x xs ih =>
    simp only [splitOnChar]
    split
    · simp
    · cases h : splitOnChar c xs with
      | nil => simp
      | cons y ys => simp

theorem splitOnChar_all (c : Char) (p : Char → Bool) : ∀ (cs : List Char),
    ((splitOnChar c cs).all (fun l => l.all p)) = cs.all (fun x => x == c || p x) := by
  intro cs
  induction cs with
  | nil => simp [splitOnChar]
  | cons x xs ih =>
    simp only [splitOnChar]
    by_cases hx : x == c
    · simp only [if_pos hx, List.all_cons, hx]
      simp [← ih]
    · simp only [if_neg hx]
      cases h : splitOnChar c xs with
      | nil => exact absurd h (splitOnChar_ne_nil c xs)
      | cons y ys =>
        rw [h] at ih
        simp only [List.all_cons] at ih ⊢
        simp only [Bool.or_eq_true] at *
        simp [← ih, hx]
        cases p x <;> cases y.all p <;> simp [Bool.and_assoc]

example (c : Char) (h : 'a' ≤ c) : (0x61 : UInt32) ≤ c.val := by
  simp only [Char.le_def] at h
  exact h

theorem chunkChar_mono (c : Char) (h : isAsciiChunkChar c = true) : isIntChunkChar c = true := by
  simp only [isAsciiChunkChar, isAsciiLetter, isAsciiDigit, Bool.or_eq_true,
    Bool.and_eq_true, decide_eq_true_eq, beq_iff_eq] at h
  simp only [isIntChunkChar, isAsciiDigit, Bool.or_eq_true, Bool.and_eq_true,
    decide_eq_true_eq, beq_iff_eq]
  rcases h with (((⟨h1, h2⟩ | ⟨h1, h2⟩) | h3) | h4) | h5
  · refine Or.inl (Or.inr ?_)
    simp only [Char.le_def] at h1 h2
    exact ⟨h1, UInt32.le_trans h2 (by decide)⟩
  · exact Or.inr ⟨h1, h2⟩
  · exact Or.inl (Or.inl (Or.inr h3))
  · exact Or.inl (Or.inl (Or.inl (Or.inl h4)))
  · exact Or.inl (Or.inl (Or.inl (Or.inr h5)))

theorem asciiChunkChar_isAscii (c : Char) (h : isAsciiChunkChar c = true) : charIsAscii c = true := by
  simp only [isAsciiChunkChar, isAsciiLetter, isAsciiDigit, Bool.or_eq_true,
    Bool.and_eq_true, decide_eq_true_eq, beq_iff_eq] at h
  simp only [charIsAscii, decide_eq_true_eq]
  rcases h with (((⟨h1, h2⟩ | ⟨h1, h2⟩) | ⟨h3, h4⟩) | h5) | h6
  · simp only [Char.le_def] at h2
    exact Nat.lt_of_le_of_lt h2 (by decide)
  · simp only [Char.le_def] at h2
    exact Nat.lt_of_le_of_lt h2 (by decide)
  · simp only [Char.le_def] at h4
    exact Nat.lt_of_le_of_lt h4 (by decide)
  · subst h5; decide
  · subst h6; decide

theorem chunkValid_parts {cclass : Char → Bool} {l : List Char}
    (h : chunkValid cclass l = true) :
    l ≠ [] ∧ l.length ≤ 63 ∧ l.all cclass = true := by
  cases l with
  | nil => cases h
  | cons c cs =>
    simp only [chunkValid, Bool.and_eq_true, decide_eq_true_eq] at h
    exact ⟨by simp, h.1.1.1, h.1.1.2⟩

theorem chunkValid_mono {A B : Char → Bool} (hAB : ∀ c, A c = true → B c = true)
    {l : List Char} (h : chunkValid A l = true) : chunkValid B l = true := by
  cases l with
  | nil => cases h
  | cons c cs =>
    simp only [chunkValid, Bool.and_eq_true, decide_eq_true_eq] at h ⊢
    obtain ⟨⟨⟨h1, h2⟩, h3⟩, h4⟩ := h
    refine ⟨⟨⟨h1, ?_⟩, h3⟩, h4⟩
    rw [List.all_eq_true] at h2 ⊢
    exact fun x hx => hAB x (h2 x hx)

theorem splitOnChar_not_mem (c : Char) : ∀ (cs : List Char) (l : List Char),
    l ∈ splitOnChar c cs → c ∉ l := by
  intro cs
  induction cs with
  | nil =>
    intro l hl
    simp only [splitOnChar, List.mem_singleton] at hl
    subst hl
    exact List.not_mem_nil c
  | cons x xs ih =>
    intro l hl
    simp only [splitOnChar] at hl
    by_cases hx : x == c
    · rw [if_pos hx] at hl
      rcases List.mem_cons.mp hl with h | h
      · subst h
        exact List.not_mem_nil c
      · exact ih l h
    · rw [if_neg hx] at hl
      cases hs : splitOnChar c xs with
      | nil => exact absurd hs (splitOnChar_ne_nil c xs)
      | cons y ys =>
        rw [hs] at hl
        rcases List.mem_cons.mp hl with h | h
        · subst h
          intro hmem
          rcases List.mem_cons.mp hmem with h' | h'
          · exact hx (by simp [h'])
          · exact ih y (hs ▸ List.mem_cons_self y ys) h'
        · exact ih l (hs ▸ List.mem_cons_of_mem y h)

theorem splitOnChar_of_not_mem (c : Char) : ∀ (cs : List Char),
    c ∉ cs → splitOnChar c cs = [cs] := by
  intro cs
  induction cs with
  | nil => intro; rfl
  | cons x xs ih =>
    intro hmem
    have hx : ¬(x == c) := by
      simp only [beq_iff_eq]
      intro h; exact hmem (h ▸ List.mem_cons_self x xs)
    simp only [splitOnChar, if_neg hx]
    rw [ih (fun h => hmem (List.mem_cons_of_mem x h))]

theorem all_bounds_of_chunks {ls : List (List Char)}
    (h : ls.all (chunkValid isAsciiChunkChar) = true) :
    ls.all (fun l => 0 < l.length && decide (l.length < 64)) = true := by
  rw [List.all_eq_true] at h ⊢
  intro l hl
  obtain ⟨hne, hlen, _⟩ := chunkValid_parts (h l hl)
  simp only [Bool.and_eq_true, decide_eq_true_eq]
  exact ⟨by simpa using List.length_pos.mpr hne, by omega⟩

theorem all_ascii_of_chunks {ls : List (List Char)}
    (h : ls.all (chunkValid isAsciiChunkChar) = true) :
    ls.all (fun l => l.all charIsAscii) = true := by
  rw [List.all_eq_true] at h ⊢
  intro l hl
  obtain ⟨_, _, hcc⟩ := chunkValid_parts (h l hl)
  rw [List.all_eq_true] at hcc ⊢
  exact fun x hx => asciiChunkChar_isAscii x (hcc x hx)

theorem idnaEncode_ascii_id (h : String) (labels : List (List Char)) (trail : Bool)
    (hdl : domainLabels h = some (labels, trail))
    (hall : labels.all (chunkValid isAsciiChunkChar) = true) :
    idnaEncode h = some h := by
  simp only [domainLabels] at hdl
  cases hinit : initLast (splitOnChar '.' h.data) with
  | none => rw [hinit] at hdl; cases hdl
  | some fl =>
    obtain ⟨f0, l0⟩ := fl
    rw [hinit] at hdl
    simp only at hdl
    have hspec := initLast_spec _ _ _ hinit
    by_cases hl0 : l0.isEmpty
    · rw [if_pos hl0] at hdl
      simp only at hdl
      split at hdl
      · cases hdl
      · cases hdl
        -- labels = f0, trail = true, l0 = []
        have hl0e : l0 = [] := by simpa using hl0
        unfold idnaEncode
        have hascii : h.data.all charIsAscii = true := by
          have hlsall : (splitOnChar '.' h.data).all (fun l => l.all charIsAscii) = true := by
            rw [hspec, List.all_append]
            simp only [Bool.and_eq_true]
            refine ⟨all_ascii_of_chunks hall, ?_⟩
            simp [hl0e]
          rw [splitOnChar_all] at hlsall
          rw [List.all_eq_true] at hlsall ⊢
          intro x hx
          rcases (Bool.or_eq_true _ _).mp (hlsall x hx) with hd | ha
          · rw [beq_iff_eq] at hd; subst hd; decide
          · exact ha
        rw [if_pos hascii, hinit]
        simp only
        rw [if_pos]
        simp only [Bool.and_eq_true]
        refine ⟨all_bounds_of_chunks hall, by simp [hl0e]⟩
    · rw [if_neg hl0] at hdl
      simp only at hdl
      split at hdl
      · cases hdl
      · cases hdl
        -- labels = splitOnChar '.' h.data = f0 ++ [l0], trail = false
        have hparts : f0.all (chunkValid isAsciiChunkChar) = true ∧
            chunkValid isAsciiChunkChar l0 = true := by
          rw [hspec, List.all_append] at hall
          simp only [Bool.and_eq_true] at hall
          exact ⟨hall.1, by simpa using hall.2⟩
        unfold idnaEncode
        have hascii : h.data.all charIsAscii = true := by
          have hlsall : (splitOnChar '.' h.data).all (fun l => l.all charIsAscii) = true := by
            exact all_ascii_of_chunks hall
          rw [splitOnChar_all] at hlsall
          rw [List.all_eq_true] at hlsall ⊢
          intro x hx
          rcases (Bool.or_eq_true _ _).mp (hlsall x hx) with hd | ha
          · rw [beq_iff_eq] at hd; subst hd; decide
          · exact ha
        rw [if_pos hascii, hinit]
        simp only
        rw [if_pos]
        simp only [Bool.and_eq_true]
        obtain ⟨hlen0, hlen1, _⟩ := chunkValid_parts hparts.2
        exact ⟨all_bounds_of_chunks hparts.1, by simp only [decide_eq_true_eq]; omega⟩

theorem idnaEncode_label (lastL : List Char) (hch : chunkValid isAsciiChunkChar lastL = true)
    (hnd : '.' ∉ lastL) : idnaEncode lastL.asString = some lastL.asString := by
  unfold idnaEncode
  have hdata : (List.asString lastL).data = lastL := rfl
  rw [hdata]
  obtain ⟨hne, hlen, hcc⟩ := chunkValid_parts hch
  have hascii : lastL.all charIsAscii = true := by
    rw [List.all_eq_true] at hcc ⊢
    exact fun x hx => asciiChunkChar_isAscii x (hcc x hx)
  rw [if_pos hascii, splitOnChar_of_not_mem '.' lastL hnd]
  cases lastL with
  | nil => exact absurd rfl hne
  | cons c cs =>
    simp only [initLast]
    rw [if_pos]
    simp only [List.all_nil, Bool.true_and, decide_eq_true_eq]
    simp only [List.length_cons] at hlen ⊢
    omega

theorem domainLabels_no_dot (h : String) (labels : List (List Char)) (trail : Bool)
    (hdl : domainLabels h = some (labels, trail)) :
    ∀ l ∈ labels, '.' ∉ l := by
  simp only [domainLabels] at hdl
  cases hinit : initLast (splitOnChar '.' h.data) with
  | none => rw [hinit] at hdl; cases hdl
  | some fl =>
    obtain ⟨f0, l0⟩ := fl
    rw [hinit] at hdl
    simp only at hdl
    have hspec := initLast_spec _ _ _ hinit
    by_cases hl0 : l0.isEmpty
    · rw [if_pos hl0] at hdl
      simp only at hdl
      split at hdl
      · cases hdl
      · cases hdl
        intro l hl
        exact splitOnChar_not_mem '.' h.data l (hspec ▸ List.mem_append_left _ hl)
    · rw [if_neg hl0] at hdl
      simp only at hdl
      split at hdl
      · cases hdl
      · cases hdl
        intro l hl
        exact splitOnChar_not_mem '.' h.data l hl

/-- Claim C3: for every host token that fullmatches the ASCII-domain grammar
with no `tld` group, `validate_host` re-matches the token against the
international-domain grammar to recover a `tld` (the re-match always
succeeds), reclassifies the host as `int_domain`, sets `rebuild`, and
replaces host and (stripped) tld with their IDNA encodings — even though the
token body is pure ASCII. -/
theorem c3_idna_rematch (cls : UrlClass) (parts : Parts) (h : String)
    (hdom : parts.domain = some h) (hne : h ≠ "")
    (hascii : asciiDomainFullmatch h = some none) :
    ∃ r h', intDomainFullmatch h = some r ∧ idnaEncode h = some h' ∧
      validateHost cls parts =
        (match r with
         | none => if tldRequired cls then .error .tldRequired
                   else .ok (some h', none, some "int_domain", true)
         | some t => .ok (some h', some (t.drop 1), some "int_domain", true)) := by
  have hascii0 := hascii
  unfold asciiDomainFullmatch domainFullmatch at hascii
  cases hdl : domainLabels h with
  | none => rw [hdl] at hascii; cases hascii
  | some lt =>
    obtain ⟨labels, trail⟩ := lt
    rw [hdl] at hascii
    simp only at hascii
    cases hinit : initLast labels with
    | none => rw [hinit] at hascii; cases hascii
    | some fl =>
      obtain ⟨front, lastL⟩ := fl
      rw [hinit] at hascii
      simp only at hascii
      by_cases hfa : front.all (chunkValid isAsciiChunkChar) = true
      case neg => rw [if_neg hfa] at hascii; cases hascii
      rw [if_pos hfa] at hascii
      by_cases htb : (!front.isEmpty && tldValidAscii lastL) = true
      case pos => rw [if_pos htb] at hascii; cases hascii
      rw [if_neg htb] at hascii
      by_cases hla : chunkValid isAsciiChunkChar lastL = true
      case neg => rw [if_neg hla] at hascii; cases hascii
      -- extraction finished
      have hfi : front.all (chunkValid isIntChunkChar) = true := by
        rw [List.all_eq_true] at hfa ⊢
        exact fun l hl => chunkValid_mono chunkChar_mono (hfa l hl)
      have hli : chunkValid isIntChunkChar lastL = true :=
        chunkValid_mono chunkChar_mono hla
      have hint : intDomainFullmatch h =
          some (if !front.isEmpty && tldValidInt lastL then
            some ('.' :: lastL).asString else none) := by
        unfold intDomainFullmatch domainFullmatch
        rw [hdl]
        simp only
        rw [hinit]
        simp only
        rw [if_pos hfi]
        by_cases hb : (!front.isEmpty && tldValidInt lastL) = true
        · rw [if_pos hb, if_pos hb]
        · rw [if_neg hb, if_neg hb, if_pos hli]
      have hspecl := initLast_spec _ _ _ hinit
      have hall : labels.all (chunkValid isAsciiChunkChar) = true := by
        rw [hspecl, List.all_append]
        simp only [Bool.and_eq_true]
        exact ⟨hfa, by simpa using hla⟩
      have hidna : idnaEncode h = some h := idnaEncode_ascii_id h labels trail hdl hall
      have hlastmem : lastL ∈ labels := hspecl ▸ List.mem_append_right _ (by simp)
      have hnodot : '.' ∉ lastL := domainLabels_no_dot h labels trail hdl lastL hlastmem
      have htldidna : idnaEncode lastL.asString = some lastL.asString :=
        idnaEncode_label lastL hla hnodot
      have htruthy : truthy parts.domain = true := by
        rw [hdom]
        simp only [truthy, Bool.not_eq_true']
        exact (Bool.not_eq_true _).mp (fun he => hne ((String.isEmpty_iff h).mp he))
      have hvh : validateHost cls parts = validateHostDomain cls h none false := by
        unfold validateHost
        rw [hdom] at htruthy ⊢
        rw [if_pos htruthy]
        simp only
        rw [if_pos trivial, hascii0]
      by_cases hbb : (!front.isEmpty && tldValidInt lastL) = true
      · have hint2 : intDomainFullmatch h = some (some ('.' :: lastL).asString) := by
          rw [hint, if_pos hbb]
        have hstep : validateHostRematch h none false =
            .ok (some ('.' :: lastL).asString, true) := by
          unfold validateHostRematch
          rw [if_pos (by simp), hint2]
        refine ⟨some ('.' :: lastL).asString, h, hint2, hidna, ?_⟩
        simp only
        rw [hvh]
        unfold validateHostDomain
        rw [hstep]
        simp only
        rw [if_neg (by simp), if_pos trivial, hidna]
        simp only [Option.map_some']
        have hdrop : (('.' :: lastL).asString).drop 1 = lastL.asString := by
          rw [String.drop_eq]
          rfl
        rw [hdrop, htldidna]
      · have hint2 : intDomainFullmatch h = some none := by
          rw [hint, if_neg hbb]
        have hstep : validateHostRematch h none false = .ok (none, true) := by
          unfold validateHostRematch
          rw [if_pos (by simp), hint2]
        refine ⟨none, h, hint2, hidna, ?_⟩
        simp only
        rw [hvh]
        unfold validateHostDomain
        rw [hstep]
        simp only
        by_cases htr : tldRequired cls = true
        · rw [if_pos (by simp [htr]), if_pos htr]
        · rw [if_neg (by simp [htr]), if_neg htr, if_pos trivial, hidna]
          rfl

theorem validateHostDomain_error_kinds (cls : UrlClass) (hs : String) (t0 : Option String)
    (i0 : Bool) (e : UrlError) (he : validateHostDomain cls hs t0 i0 = .error e) :
    e = .hostInvalid ∨ e = .tldRequired ∨ e = .assertionFailed ∨ e = .unicodeError := by
  unfold validateHostDomain at he
  cases hvr : validateHostRematch hs t0 i0 with
  | error e' =>
    rw [hvr] at he
    simp only [validateHostRematch] at hvr
    cases he
    repeat' split at hvr
    all_goals cases hvr <;> simp
  | ok ti =>
    obtain ⟨tld1, isInt⟩ := ti
    rw [hvr] at he
    simp only at he
    repeat' split at he
    all_goals cases he <;> simp

theorem validateHost_error_kinds (cls : UrlClass) (parts : Parts) (e : UrlError)
    (he : validateHost cls parts = .error e) :
    e = .hostInvalid ∨ e = .tldRequired ∨ e = .assertionFailed ∨ e = .unicodeError := by
  simp only [validateHost] at he
  repeat' split at he
  all_goals try exact validateHostDomain_error_kinds _ _ _ _ _ he
  all_goals cases he <;> simp

theorem pre_trans {a b c : List Char} (h1 : ∃ t, t ++ b = a) (h2 : ∃ t, t ++ c = b) :
    ∃ t, t ++ c = a := by
  obtain ⟨t1, h1⟩ := h1
  obtain ⟨t2, h2⟩ := h2
  exact ⟨t1 ++ t2, by rw [List.append_assoc, h2, h1]⟩

theorem dropWhile_pre (p : Char → Bool) (cs : List Char) :
    ∃ t, t ++ cs.dropWhile p = cs :=
  ⟨cs.takeWhile p, cs.takeWhile_append_dropWhile p⟩

theorem parseOctet_pre (cs : List Char) (d : List Char) (r : List Char)
    (h : parseOctet cs = some (d, r)) : ∃ t, t ++ r = cs := by
  simp only [parseOctet] at h
  split at h
  · cases h
  · cases h
    exact dropWhile_pre _ cs

theorem parseIpv4_pre (cs : List Char) (v : String) (r : List Char)
    (h : parseIpv4 cs = some (v, r)) : ∃ t, t ++ r = cs := by
  unfold parseIpv4 at h
  cases h1 : parseOctet cs with
  | none => rw [h1] at h; cases h
  | some dr1 =>
    obtain ⟨d1, r1⟩ := dr1
    rw [h1] at h
    simp only at h
    have hp1 := parseOctet_pre _ _ _ h1
    split at h
    next r1' =>
      have hs1 : ∃ t, t ++ r1' = cs := pre_trans hp1 ⟨['.'], rfl⟩
      cases h2 : parseOctet r1' with
      | none => rw [h2] at h; cases h
      | some dr2 =>
        obtain ⟨d2, r2⟩ := dr2
        rw [h2] at h
        simp only at h
        have hs2 : ∃ t, t ++ r2 = cs := pre_trans hs1 (parseOctet_pre _ _ _ h2)
        split at h
        next r2' =>
          have hs2' : ∃ t, t ++ r2' = cs := pre_trans hs2 ⟨['.'], rfl⟩
          cases h3 : parseOctet r2' with
          | none => rw [h3] at h; cases h
          | some dr3 =>
            obtain ⟨d3, r3⟩ := dr3
            rw [h3] at h
            simp only at h
            have hs3 : ∃ t, t ++ r3 = cs := pre_trans hs2' (parseOctet_pre _ _ _ h3)
            split at h
            next r3' =>
              have hs3' : ∃ t, t ++ r3' = cs := pre_trans hs3 ⟨['.'], rfl⟩
              cases h4 : parseOctet r3' with
              | none => rw [h4] at h; cases h
              | some dr4 =>
                obtain ⟨d4, r4⟩ := dr4
                rw [h4] at h
                simp only at h
                have hs4 : ∃ t, t ++ r4 = cs := pre_trans hs3' (parseOctet_pre _ _ _ h4)
                split at h
                · cases h
                  exact hs4
                · cases h
            next => cases h
        next => cases h
    next => cases h

theorem parseIpv6_pre (cs : List Char) (v : String) (r : List Char)
    (h : parseIpv6 cs = some (v, r)) : ∃ t, t ++ r = cs := by
  unfold parseIpv6 at h
  split at h
  next r1 =>
    simp only at h
    have hb : ∃ t, t ++ r1.dropWhile isHexChar = '[' :: r1 :=
      pre_trans ⟨['['], rfl⟩ (dropWhile_pre _ r1)
    split at h
    next r3 heq3 =>
      rw [heq3] at hb
      split at h
      · cases h
      · have hb2 : ∃ t, t ++ r3.dropWhile (fun c => isHexChar c || c == ':') = '[' :: r1 :=
          pre_trans (pre_trans hb ⟨[':'], rfl⟩) (dropWhile_pre _ r3)
        split at h
        next r5 heq5 =>
          rw [heq5] at hb2
          split at h
          · cases h
            exact pre_trans hb2 ⟨[']'], rfl⟩
          · cases h
        next => cases h
    next => cases h
  next => cases h
  next => cases h

theorem parseHostGroup_pre (cs : List Char) :
    ∃ t, t ++ (parseHostGroup cs).2.2.2 = cs := by
  unfold parseHostGroup
  cases h4 : parseIpv4 cs with
  | some vr => obtain ⟨v, r⟩ := vr; exact parseIpv4_pre _ _ _ h4
  | none =>
    cases h6 : parseIpv6 cs with
    | some vr => obtain ⟨v, r⟩ := vr; exact parseIpv6_pre _ _ _ h6
    | none =>
      simp only
      split
      · exact ⟨[], rfl⟩
      · exact dropWhile_pre _ cs

theorem parsePort_pre (cs : List Char) : ∃ t, t ++ (parsePort cs).2 = cs := by
  unfold parsePort
  split
  next r =>
    simp only
    split
    · exact ⟨[], rfl⟩
    · exact pre_trans ⟨[':'], rfl⟩ (dropWhile_pre _ r)
  next => exact ⟨[], rfl⟩

theorem matchHostRegex_pre (seg : String) :
    ∃ t, t ++ ((matchHostRegex seg).2).data = seg.data := by
  have h1 := parseHostGroup_pre seg.data
  have h2 := parsePort_pre (parseHostGroup seg.data).2.2.2
  simp only [matchHostRegex]
  rcases hg : parseHostGroup seg.data with ⟨v4, v6, dom, cs1⟩
  rw [hg] at h1 h2
  simp only at h1 h2 ⊢
  rcases hp : parsePort cs1 with ⟨prt, cs2⟩
  rw [hp] at h2
  simp only at h2 ⊢
  exact pre_trans h1 h2

theorem processSegment_kinds (cls : UrlClass) (seg : String) :
    (∃ rec, processSegment cls seg = .ok rec) ∨
    (∃ e, processSegment cls seg = .error e ∧
      (e = .hostInvalid ∨ e = .tldRequired ∨ e = .assertionFailed ∨
       e = .unicodeError ∨ e = .portInvalid)) := by
  cases hvh : validateHost cls (matchHostRegex seg).1 with
  | error e =>
    have hps : processSegment cls seg = .error e := by
      simp only [processSegment, hvh]
    right
    refine ⟨e, hps, ?_⟩
    rcases validateHost_error_kinds _ _ _ hvh with h | h | h | h
    · exact Or.inl h
    · exact Or.inr (Or.inl h)
    · exact Or.inr (Or.inr (Or.inl h))
    · exact Or.inr (Or.inr (Or.inr (Or.inl h)))
  | ok res =>
    obtain ⟨a, b, c, d⟩ := res
    cases hvp : validatePortOpt (matchHostRegex seg).1.port with
    | error e =>
      have hps : processSegment cls seg = .error e := by
        simp only [processSegment, hvh, hvp]
      right
      refine ⟨e, hps, ?_⟩
      unfold validatePortOpt at hvp
      split at hvp
      · cases hvp
      · split at hvp
        · cases hvp
          exact Or.inr (Or.inr (Or.inr (Or.inr rfl)))
        · cases hvp
    | ok u =>
      have hps : processSegment cls seg =
          .ok { host := a, host_type := c, tld := b, rebuild := d,
                port := (matchHostRegex seg).1.port } := by
        simp only [processSegment, hvh, hvp]
      exact Or.inl ⟨_, hps⟩

/-! ## Claim theorems -/

/-- Value produced by `validate` on `"foo://localhost"` for `AnyUrl`. -/
def c1Val : UrlValue :=
  { cls := .anyUrl, text := "foo://localhost", scheme := "foo",
    host := some "localhost", host_type := some "int_domain", rebuild := true }

/-- Value produced by `validate` on `"http://x.com"` for `HttpUrl`. -/
def c1WVal : UrlValue :=
  { cls := .httpUrl, text := "http://x.com", scheme := "http",
    host := some "x.com", tld := some "com", host_type := some "domain",
    port := some "80", rebuild := false }

/-- Claim C1 (amended): whenever validation succeeds with `rebuild = false`
the value's string is the input unchanged (universally); the claim's
`rebuild = true` half does not survive as stated — at the witness
`"foo://localhost"` re-validating the canonical string succeeds and returns
the identical value (so the canonical string is a fixed point of validation
at the value level) but with `rebuild = true` again, the TLD-less host being
re-classified international on every validation. -/
theorem c1_round_trip_amended :
    (∀ (cls : UrlClass) (s : String) (v : UrlValue),
        validateStr cls s = .ok v → v.rebuild = false → v.text = s) ∧
    (validateStr .anyUrl "foo://localhost" = .ok c1Val ∧ c1Val.rebuild = true ∧
      validateStr .anyUrl c1Val.text = .ok c1Val) :=
  ⟨validateStr_text, rfl, rfl, rfl⟩

/-- Value produced by `validate` on `"cockroachdb://@db"` (empty user
captured, host rebuilt, the `@` dropped by the builder). -/
def c1BVal : UrlValue :=
  { cls := .cockroachDsn, text := "cockroachdb://db", scheme := "cockroachdb",
    user := some "", host := some "db", host_type := some "int_domain",
    rebuild := true }

/-- Claim C1 counterexample: both parts of the claim's `rebuild = true` half
fail on the code.  On `"foo://localhost"` validation succeeds with
`rebuild = true` but validating the canonical string does NOT produce a
value with `rebuild = false`; and on `"cockroachdb://@db"` (empty user,
which satisfies `user_required` but is dropped by the builder) validating
the canonical string does not even succeed — it fails with the
user-info-required error. -/
theorem c1_round_trip_counterexample :
    (validateStr .anyUrl "foo://localhost" = .ok c1Val ∧ c1Val.rebuild = true ∧
      (validateStr .anyUrl c1Val.text).map (fun v => v.rebuild) ≠ .ok false) ∧
    (validateStr .cockroachDsn "cockroachdb://@db" = .ok c1BVal ∧
      c1BVal.rebuild = true ∧
      validateStr .cockroachDsn c1BVal.text = .error .userinfoRequired) :=
  ⟨⟨rfl, rfl, by decide⟩, ⟨rfl, rfl, rfl⟩⟩

/-- Claim C1 witness: the no-rebuild half of the amended claim applied at
`"http://x.com"`. -/
theorem c1_round_trip_witness :
    (validateStr .httpUrl "http://x.com" = .ok c1WVal ∧ c1WVal.rebuild = false) ∧
    c1WVal.text = "http://x.com" :=
  ⟨⟨rfl, rfl⟩, c1_round_trip_amended.1 .httpUrl "http://x.com" c1WVal rfl rfl⟩

/-- Value produced by `validate` on `"foo://@a.b"` for `AnyUrl` (empty user
captured, host rebuilt, the `@` dropped by the builder). -/
def c2Val : UrlValue :=
  { cls := .anyUrl, text := "foo://a.b", scheme := "foo", user := some "",
    host := some "a.b", host_type := some "int_domain", rebuild := true }

/-- Value produced by re-validating `"foo://a.b"` for `AnyUrl`. -/
def c2Val2 : UrlValue :=
  { cls := .anyUrl, text := "foo://a.b", scheme := "foo", user := none,
    host := some "a.b", host_type := some "int_domain", rebuild := true }

/-- Value produced by `validate` on `"mongodb://db.example/records"`. -/
def c2WVal : UrlValue :=
  { cls := .mongoDsn, text := "mongodb://db.example/records", scheme := "mongodb",
    host := some "db.example", tld := some "example", host_type := some "domain",
    port := some "27017", path := some "/records", rebuild := false }

/-- Claim C2 (amended): idempotence holds whenever the first validation does
not rebuild (then `str(v) = s` and re-validation returns the identical
value); after a rebuild, re-validation — when it is defined, as at
`"foo://@a.b"` — need not be field-for-field equal: an empty-but-present
user is dropped by the builder and becomes absent. -/
theorem c2_idempotence_amended :
    (∀ (cls : UrlClass) (s : String) (v : UrlValue),
        validateStr cls s = .ok v → v.rebuild = false →
        validateStr cls v.text = .ok v) ∧
    (validateStr .anyUrl "foo://@a.b" = .ok c2Val ∧ c2Val.rebuild = true ∧
      validateStr .anyUrl c2Val.text = .ok c2Val2 ∧
      c2Val.user = some "" ∧ c2Val2.user = none) :=
  ⟨fun cls s v h hrb => by rw [validateStr_text cls s v h hrb]; exact h,
   rfl, rfl, rfl, rfl, rfl⟩

/-- Value produced by `validate` on `"cockroachdb://@crdb"`. -/
def c2BVal : UrlValue :=
  { cls := .cockroachDsn, text := "cockroachdb://crdb", scheme := "cockroachdb",
    user := some "", host := some "crdb", host_type := some "int_domain",
    rebuild := true }

/-- Claim C2 counterexample: `validate(str(validate("foo://@a.b")))` is
defined but differs from the first value in the `user` field (`some ""`
versus `none`), refuting field-for-field idempotence; and
`validate(str(validate("cockroachdb://@crdb")))` is not even defined (the
builder drops the empty user, so re-validation fails the user-info
requirement), refuting the definedness half as well. -/
theorem c2_idempotence_counterexample :
    (validateStr .anyUrl "foo://@a.b" = .ok c2Val ∧
      validateStr .anyUrl c2Val.text = .ok c2Val2 ∧
      c2Val.user = some "" ∧ c2Val2.user = none ∧ c2Val2 ≠ c2Val) ∧
    (validateStr .cockroachDsn "cockroachdb://@crdb" = .ok c2BVal ∧
      validateStr .cockroachDsn c2BVal.text = .error .userinfoRequired) :=
  ⟨⟨rfl, rfl, rfl, rfl, by decide⟩, ⟨rfl, rfl⟩⟩

/-- Claim C2 witness: the no-rebuild half of the amended claim applied at
`"mongodb://db.example/records"`. -/
theorem c2_idempotence_witness :
    (validateStr .mongoDsn "mongodb://db.example/records" = .ok c2WVal ∧
      c2WVal.rebuild = false) ∧
    validateStr .mongoDsn c2WVal.text = .ok c2WVal :=
  ⟨⟨rfl, rfl⟩, c2_idempotence_amended.1 .mongoDsn "mongodb://db.example/records" c2WVal rfl rfl⟩

/-- Claim C3 witness: the re-match rule applied at host `"localhost"` (pure
ASCII, no TLD) for `AnyUrl`. -/
theorem c3_idna_rematch_witness :
    (({ domain := some "localhost" } : Parts).domain = some "localhost" ∧
      "localhost" ≠ "" ∧ asciiDomainFullmatch "localhost" = some none) ∧
    (∃ r h', intDomainFullmatch "localhost" = some r ∧
      idnaEncode "localhost" = some h' ∧
      validateHost .anyUrl { domain := some "localhost" } =
        (match r with
         | none => if tldRequired .anyUrl then .error .tldRequired
                   else .ok (some h', none, some "int_domain", true)
         | some t => .ok (some h', some (t.drop 1), some "int_domain", true))) :=
  ⟨⟨rfl, by decide, rfl⟩,
   c3_idna_rematch .anyUrl { domain := some "localhost" } "localhost" rfl (by decide) rfl⟩

/-- Claim C4: evaluating the multi-host pipeline at the claim's example
input.  Both comma segments validate individually (in input order, ports
`5432` and `5433`) but are TLD-less, hence classified `int_domain` with
`rebuild = true`; the hosts-list branch then passes `url=None` to the
constructor and `build(**kwargs)` is called without its required `host`
argument, raising `TypeError` instead of returning the hosts-list value. -/
theorem c4_multi_host_example :
    validateStr .postgresDsn "postgres://user@host1:5432,host2:5433/db" =
      .error .typeError ∧
    processSegments .postgresDsn ["host1:5432", "host2:5433"] =
      .ok [{ host := some "host1", host_type := some "int_domain", tld := none,
             rebuild := true, port := some "5432" },
           { host := some "host2", host_type := some "int_domain", tld := none,
             rebuild := true, port := some "5433" }] :=
  ⟨rfl, rfl⟩

/-- Claim C5: for every profile and parts record, a key produced by the
profile's default-parts function is written only when the current value is
absent or empty (a truthy parsed value is never overwritten, an untruthy one
is replaced exactly when the defaults provide the key); and
`validate("redis://")` succeeds with `host=localhost`, `port=6379`,
`path=/0`. -/
theorem c5_default_injection :
    (∀ (cls : UrlClass) (parts : Parts),
      (truthy parts.domain = true → (applyDefaultParts cls parts).domain = parts.domain) ∧
      (truthy parts.port = true → (applyDefaultParts cls parts).port = parts.port) ∧
      (truthy parts.path = true → (applyDefaultParts cls parts).path = parts.path) ∧
      (truthy parts.domain = false → (applyDefaultParts cls parts).domain =
        (match (getDefaultParts cls parts).domain with
         | some v => some v
         | none => parts.domain)) ∧
      (truthy parts.port = false → (applyDefaultParts cls parts).port =
        (match (getDefaultParts cls parts).port with
         | some v => some v
         | none => parts.port)) ∧
      (truthy parts.path = false → (applyDefaultParts cls parts).path =
        (match (getDefaultParts cls parts).path with
         | some v => some v
         | none => parts.path))) ∧
    ((validateStr .redisDsn "redis://").map (fun v => (v.host, v.port, v.path)) =
      .ok (some "localhost", some "6379", some "/0")) := by
  refine ⟨fun cls parts => ⟨?_, ?_, ?_, ?_, ?_, ?_⟩, rfl⟩ <;>
    intro ht <;> simp [applyDefaultParts, applyDefault1, ht]

/-- Claim C5 witness: a truthy parsed domain survives the Redis defaults,
and an absent one receives the computed default `localhost`. -/
theorem c5_default_injection_witness :
    (applyDefaultParts .redisDsn { domain := some "x" }).domain = some "x" ∧
    (applyDefaultParts .redisDsn ({} : Parts)).domain = some "localhost" :=
  ⟨(c5_default_injection.1 .redisDsn { domain := some "x" }).1 rfl,
   by
     have h := (c5_default_injection.1 .redisDsn ({} : Parts)).2.2.2.1 rfl
     simpa using h⟩

/-- Claim C6 (amended): `HttpUrl.get_default_parts` compares the scheme with
the exact lowercase string `'http'`: the default port is `80` only for that
spelling and `443` for every other accepted spelling, so
`validate("HTTP://x.com")` succeeds (the allowed-scheme check lower-cases)
but receives port `443`, while `validate("http://x.com")` receives `80`. -/
theorem c6_http_default_port_amended :
    (∀ parts : Parts, (getDefaultParts .httpUrl parts).port =
      some (if parts.scheme = some "http" then "80" else "443")) ∧
    (validateStr .httpUrl "http://x.com").map (fun v => v.port) = .ok (some "80") ∧
    (validateStr .httpUrl "HTTP://x.com").map (fun v => v.port) = .ok (some "443") :=
  ⟨fun _ => rfl, rfl, rfl⟩

/-- Claim C6 counterexample: `validate("HTTP://x.com")` succeeds but its
port is `443`, not the claimed `80`. -/
theorem c6_http_default_port_counterexample :
    (validateStr .httpUrl "HTTP://x.com").map (fun v => v.port) = .ok (some "443") ∧
    (validateStr .httpUrl "HTTP://x.com").map (fun v => v.port) ≠ .ok (some "80") :=
  ⟨rfl, by decide⟩

/-- Parts of `"http://x.com/path extra"` after `HttpUrl` default injection. -/
def c7Parts : Parts :=
  { scheme := some "http", domain := some "x.com", port := some "80",
    path := some "/path" }

/-- Claim C7 (amended): when parts validation passes (scheme present and
permitted, port in range, user-info present where required) and the grammar
match does not extend to the end of the string, `validate` fails with the
`url.extra` error whose context is the Python `repr` of the unconsumed
suffix.  (When parts validation fails, that error is raised first: the
trailing-garbage check runs after `validate_parts`; and the stored context
is `repr(suffix)`, i.e. quoted.) -/
theorem c7_trailing_garbage_amended (cls : UrlClass) (s : String) (parts1 : Parts)
    (hok : validateParts cls (applyDefaultParts cls (matchUrlFor cls s).1) = .ok parts1)
    (hrest : (matchUrlFor cls s).2 ≠ "") :
    validateStr cls s = .error (.extraAfterValid (pyRepr (matchUrlFor cls s).2)) := by
  unfold validateStr
  rcases hm : matchUrlFor cls s with ⟨p0, rest⟩
  rw [hm] at hok hrest
  simp only at hok hrest ⊢
  rw [hok]
  simp only
  rw [if_neg hrest]

/-- Claim C7 counterexample: on input `":"` the match consumes nothing (the
unconsumed suffix is `":"` itself), yet `validate` fails with the
missing-scheme error, not the trailing-garbage error. -/
theorem c7_trailing_garbage_counterexample :
    (matchUrlRegex ":").2 ≠ "" ∧
    validateStr .anyUrl ":" = .error .missingScheme ∧
    validateStr .anyUrl ":" ≠ .error (.extraAfterValid (pyRepr ":")) :=
  ⟨by decide, rfl, by decide⟩

/-- Claim C7 witness: the amended claim applied at
`"http://x.com/path extra"`, whose reported context is `repr(" extra")`,
i.e. the single-quoted string `"' extra'"`. -/
theorem c7_trailing_garbage_witness :
    validateParts .httpUrl
      (applyDefaultParts .httpUrl (matchUrlFor .httpUrl "http://x.com/path extra").1) =
        .ok c7Parts ∧
    (matchUrlFor .httpUrl "http://x.com/path extra").2 ≠ "" ∧
    pyRepr (matchUrlFor .httpUrl "http://x.com/path extra").2 = "' extra'" ∧
    validateStr .httpUrl "http://x.com/path extra" =
      .error (.extraAfterValid (pyRepr (matchUrlFor .httpUrl "http://x.com/path extra").2)) :=
  ⟨rfl, by decide, rfl,
   c7_trailing_garbage_amended .httpUrl "http://x.com/path extra" c7Parts rfl (by decide)⟩

/-- Claim C8 (amended): the bare-host pattern has only optional components,
so it matches a (possibly empty) prefix of EVERY comma segment — there is no
`InvalidHostSegment` error in the module, the unmatched suffix of a segment
is silently ignored, and a segment can only be rejected by host
classification or the per-host port bound (`url.host`, `url.port`, or the
modelled assertion / IDNA failures). -/
theorem c8_host_segment_amended :
    (∀ seg : String, ∃ t, t ++ ((matchHostRegex seg).2).data = seg.data) ∧
    (∀ (cls : UrlClass) (seg : String),
      (∃ rec, processSegment cls seg = .ok rec) ∨
      (∃ e, processSegment cls seg = .error e ∧
        (e = .hostInvalid ∨ e = .tldRequired ∨ e = .assertionFailed ∨
         e = .unicodeError ∨ e = .portInvalid))) :=
  ⟨matchHostRegex_pre, processSegment_kinds⟩

/-- Claim C8 counterexample: the segment `"b.com x"` does not fullmatch the
bare-host grammar (the suffix `" x"` is left over), yet multi-host
validation SUCCEEDS, accepting the matched prefix `"b.com"` as the second
host — no `InvalidHostSegment` failure exists. -/
theorem c8_host_segment_counterexample :
    (matchHostRegex "b.com x").2 = " x" ∧
    (validateStr .postgresDsn "postgres://u@a.com,b.com x/db").map
      (fun v => v.hosts.map (fun hs => hs.map (fun hp => hp.host))) =
      .ok (some [some "a.com", some "b.com"]) :=
  ⟨rfl, rfl⟩

/-- Claim C9 (amended): in `validate_parts` with the port check enabled
(single-host classes), once the scheme gate passes, a captured port whose
integer value exceeds 65535 makes `validate` fail with the `url.port` error
(when the scheme gate fails, that error wins instead); 65535 itself passes
the check; multi-host classes run `validate_parts` with the port check
disabled and instead apply the same bound to each segment's own port. -/
theorem c9_port_bounds_amended :
    (∀ (cls : UrlClass) (s : String) (sch p : String),
      isMultiHost cls = false →
      (applyDefaultParts cls (matchUrlFor cls s).1).scheme = some sch →
      schemePermitted cls sch = true →
      (applyDefaultParts cls (matchUrlFor cls s).1).port = some p →
      65535 < pyInt p →
      validateStr cls s = .error .portInvalid) ∧
    (∀ p : String, pyInt p ≤ 65535 → validatePortOpt (some p) = .ok ()) ∧
    (∀ (cls : UrlClass) (parts : Parts), isMultiHost cls = true →
      validateParts cls parts = validatePartsAux cls parts false) ∧
    (∀ (cls : UrlClass) (seg : String) (res : HostResult) (p : String),
      validateHost cls (matchHostRegex seg).1 = .ok res →
      (matchHostRegex seg).1.port = some p → 65535 < pyInt p →
      processSegment cls seg = .error .portInvalid) := by
  refine ⟨?_, ?_, ?_, ?_⟩
  · intro cls s sch p hmulti hsch hperm hport hlt
    unfold validateStr
    rcases hm : matchUrlFor cls s with ⟨p0, rest⟩
    rw [hm] at hsch hport
    simp only at hsch hport ⊢
    have hvp : validateParts cls (applyDefaultParts cls p0) = .error .portInvalid := by
      unfold validateParts validatePartsAux
      rw [hmulti]
      rw [hsch]
      simp only
      rw [if_neg (by simp [hperm])]
      rw [hport]
      simp only [validatePortOpt, Bool.not_true]
      rw [if_pos hlt]
      simp
    rw [hvp]
  · intro p hle
    simp only [validatePortOpt]
    rw [if_neg (by omega)]
  · intro cls parts h
    simp [validateParts, h]
  · intro cls seg res p hvh hp hlt
    simp only [processSegment, hvh]
    obtain ⟨a, b, c, d⟩ := res
    simp only
    rw [hp]
    simp only [validatePortOpt]
    rw [if_pos hlt]

/-- Claim C9 counterexample: on `"x:70000"` the grammar captures port
`"70000"` (above the bound), but `validate` fails with the missing-scheme
error rather than the port error, because the scheme gate runs first. -/
theorem c9_port_bounds_counterexample :
    (matchUrlRegex "x:70000").1.port = some "70000" ∧ 65535 < pyInt "70000" ∧
    validateStr .anyUrl "x:70000" = .error .missingScheme ∧
    validateStr .anyUrl "x:70000" ≠ .error .portInvalid :=
  ⟨rfl, by decide, rfl, by decide⟩

/-- Claim C9 witness: the four halves of the amended claim at concrete
inputs: an over-bound single-host port, the boundary port 65535, the
multi-host port-check bypass, and an over-bound per-segment port. -/
theorem c9_port_bounds_witness :
    validateStr .anyUrl "foo://h.com:99999" = .error .portInvalid ∧
    validatePortOpt (some "65535") = .ok () ∧
    validateParts .postgresDsn {} = validatePartsAux .postgresDsn {} false ∧
    processSegment .postgresDsn "h.com:99999" = .error .portInvalid :=
  ⟨c9_port_bounds_amended.1 .anyUrl "foo://h.com:99999" "foo" "99999"
      rfl rfl rfl rfl (by decide),
   c9_port_bounds_amended.2.1 "65535" (by decide),
   c9_port_bounds_amended.2.2.1 .postgresDsn {} rfl,
   c9_port_bounds_amended.2.2.2 .postgresDsn "h.com:99999"
      (some "h.com", some "com", some "domain", false) "99999" rfl rfl (by decide)⟩

/-- Value used by the C10 witness. -/
def c10Val : UrlValue :=
  { cls := .httpUrl, text := "http://x.com", scheme := "http",
    host := some "x.com", tld := some "com", host_type := some "domain",
    port := some "80", rebuild := false }

/-- Claim C10: `validate` returns an input value unchanged exactly when its
runtime class equals the validating class; every string input, and every
value of a different class (including strict subclasses), is parsed from
scratch from its string content. -/
theorem c10_short_circuit :
    (∀ (cls : UrlClass) (v : UrlValue), v.cls = cls →
      validate cls (.val v) = .ok v) ∧
    (∀ (cls : UrlClass) (v : UrlValue), v.cls ≠ cls →
      validate cls (.val v) = validateStr cls v.text) ∧
    (∀ (cls : UrlClass) (s : String), validate cls (.str s) = validateStr cls s) :=
  ⟨fun cls v h => by simp [validate, h],
   fun cls v h => by simp [validate, h],
   fun cls s => rfl⟩

/-- Claim C10 witness: an `HttpUrl` value is returned unchanged by `HttpUrl`
validation and re-parsed from scratch by `AnyUrl` validation. -/
theorem c10_short_circuit_witness :
    (c10Val.cls = .httpUrl ∧ validate .httpUrl (.val c10Val) = .ok c10Val) ∧
    (c10Val.cls ≠ .anyUrl ∧
      validate .anyUrl (.val c10Val) = validateStr .anyUrl c10Val.text) :=
  ⟨⟨rfl, c10_short_circuit.1 .httpUrl c10Val rfl⟩,
   ⟨by decide, c10_short_circuit.2.1 .anyUrl c10Val (by decide)⟩⟩
